import Mathlib

/-!
Shallow embedding of the ctrldeck sidecar supervisor
(src/frontend/src-tauri/src/lib.rs).

The Rust file wires Tauri lifecycle hooks to child-process management:
a `SidecarState` struct holds `Mutex<Option<CommandChild>>`; the setup
hook creates the sidecar command and spawns it, storing the child handle
and starting an async listener task over the `CommandEvent` stream; the
window-destroyed handler takes the handle out of the mutex and kills the
child.  We embed the event-stream listener as a pure function over a list
of events, and the supervisor as a transition system whose state records
the handle slot, a fresh-handle counter, the ledger of termination
requests issued, and the lines printed to stdout/stderr.
-/

namespace CtrlDeck

/-- One event from the sidecar output stream.  Mirrors
`tauri_plugin_shell::process::CommandEvent`, whose variants are
`Stdout(Vec<u8>)`, `Stderr(Vec<u8>)`, `Error(String)` and
`Terminated(TerminatedPayload)` with `TerminatedPayload` carrying
`code: Option<i32>` and `signal: Option<i32>`.  Byte lines are modelled
as the text the Rust code obtains via `String::from_utf8_lossy`. -/
inductive CommandEvent where
  | stdout (line : String)
  | stderr (line : String)
  | terminated (code : Option Int) (signal : Option Int)
  | error (msg : String)
deriving DecidableEq, Repr

/-- A line printed by the program: `out` for `println!` (standard
output), `err` for `eprintln!` (standard error). -/
inductive LogLine where
  | out (s : String)
  | err (s : String)
deriving DecidableEq, Repr

/-- Rust `Debug` formatting of an `Option<i32>`, as produced for
`payload.code` by the listener. -/
def debugOptionInt : Option Int → String
  | none => "None"
  | some c => "Some(" ++ toString c ++ ")"

/-- The prefix of the `println!` for a `Stdout` event. -/
def stdoutTag : String := "[Backend] "

/-- The prefix of the `eprintln!` for a `Stderr` event. -/
def stderrTag : String := "[Backend Error] "

/-- The prefix of the `println!` for a `Terminated` event. -/
def terminatedTag : String := "[Backend] Process terminated with code: "

/-- The log lines the listener match arm emits for a single event:
`Stdout` and `Stderr` lines are forwarded with their origin prefix,
`Terminated` logs the exit code, the wildcard arm emits nothing. -/
def eventLogLines : CommandEvent → List LogLine
  | .stdout line => [.out (stdoutTag ++ line)]
  | .stderr line => [.err (stderrTag ++ line)]
  | .terminated code _ => [.out (terminatedTag ++ debugOptionInt code)]
  | .error _ => []

/-- The listener task: `while let Some(event) = rx.recv().await` with a
match on the event.  Applied to the list of events the channel will
deliver, it returns the log lines printed and the events left unread:
a `Terminated` event executes `break`, leaving the rest of the stream
unread; every other event continues the loop; the stream ending simply
ends the loop. -/
def listen : List CommandEvent → List LogLine × List CommandEvent
  | [] => ([], [])
  | .stdout line :: rest =>
      let p := listen rest
      (.out (stdoutTag ++ line) :: p.1, p.2)
  | .stderr line :: rest =>
      let p := listen rest
      (.err (stderrTag ++ line) :: p.1, p.2)
  | .terminated code _ :: rest =>
      ([.out (terminatedTag ++ debugOptionInt code)], rest)
  | .error _ :: rest => listen rest

/-- Whether the stream contains a `Terminated` event. -/
def hasTerminated : List CommandEvent → Bool
  | [] => false
  | .terminated _ _ :: _ => true
  | _ :: rest => hasTerminated rest

/-- Supervisor state together with its observable history.  `child` is
the `Mutex<Option<CommandChild>>` slot of `SidecarState`, with handles
named by natural numbers; `nextId` generates a fresh name for each
successfully spawned child; `kills` records, in order, every handle on
which `child.kill()` was invoked; `log` records the lines printed by the
setup and window-event closures (and, via `Op.deliver`, by the listener
task). -/
structure SupSystem where
  child : Option Nat
  nextId : Nat
  kills : List Nat
  log : List LogLine
deriving DecidableEq, Repr

/-- The managed state at application start: an empty slot
(`Mutex::new(None)`), nothing killed, nothing logged. -/
def initSystem : SupSystem := ⟨none, 0, [], []⟩

/-- Outcome of the two fallible steps of the setup closure:
`shell.sidecar("streamdeck-server")` may fail to create the command, and
`command.spawn()` may be rejected by the OS. -/
inductive SpawnResult where
  | ok
  | cmdErr (msg : String)
  | spawnErr (msg : String)
deriving DecidableEq, Repr

/-- The setup closure.  On a successful spawn it stores the fresh child
handle in the slot (replacing any prior value), starts the listener task
(reported by the `Bool` component) and logs success; on either failure
it logs the error to stderr and changes nothing else.  In every case the
closure returns `Ok(())`, so the application keeps running. -/
def setup (s : SupSystem) : SpawnResult → SupSystem × Bool × Except String Unit
  | .ok =>
      ({ s with
          child := some s.nextId
          nextId := s.nextId + 1
          log := s.log ++ [.out "Backend server started successfully"] },
        true, .ok ())
  | .cmdErr msg =>
      ({ s with log := s.log ++ [.err ("Failed to create sidecar command: " ++ msg)] },
        false, .ok ())
  | .spawnErr msg =>
      ({ s with log := s.log ++ [.err ("Failed to spawn backend server: " ++ msg)] },
        false, .ok ())

/-- The window-destroyed handler: take the handle out of the mutex
(leaving `None`); if one was present, issue `child.kill()` and log
completion.  The `Result` of `kill()` is discarded by the Rust code
(`let _ = child.kill();`), so the handler behaves identically whether
the OS kill succeeds (`killOk = true`) or fails; the kill request itself
is recorded in `kills` either way.  The handler returns normally in all
cases. -/
def shutdown (s : SupSystem) (_killOk : Bool) : SupSystem :=
  let c := s.child
  let s1 : SupSystem := { s with child := none }
  match c with
  | some h =>
      { s1 with
          kills := s1.kills ++ [h]
          log := s1.log ++ [.out "Backend server stopped"] }
  | none => s1

/-- An operation on the running application: the setup hook firing with
a given spawn outcome, the window-destroyed hook firing (with the fate
of the ignored OS kill), or the listener task processing one event from
its channel. -/
inductive Op where
  | setupOp (r : SpawnResult)
  | windowDestroyed (killOk : Bool)
  | deliver (e : CommandEvent)
deriving DecidableEq, Repr

/-- One operation applied to the system.  The listener task only prints;
it has no access to `SidecarState`, so `deliver` touches only the log. -/
def step (s : SupSystem) : Op → SupSystem
  | .setupOp r => (setup s r).1
  | .windowDestroyed killOk => shutdown s killOk
  | .deliver e => { s with log := s.log ++ eventLogLines e }

/-- A sequence of operations applied in order. -/
def runOps (s : SupSystem) (ops : List Op) : SupSystem := ops.foldl step s

/-- The listener task draining a list of events, as its effect on the
system: each event is delivered in order. -/
def deliverAll (s : SupSystem) (evs : List CommandEvent) : SupSystem :=
  runOps s (evs.map Op.deliver)

/-! ### Two concurrent shutdown invocations

The window-destroyed handler is
`let child = { state.child.lock().unwrap().take() }; if let Some(child) = child { child.kill() }`:
the take happens inside the mutex guard (one atomic step), the kill on
the thread-local result happens after the guard is dropped.  We model
two threads running this handler over one shared slot as a small-step
transition relation and show every interleaving issues exactly one kill. -/

/-- Progress of one thread through the destroyed-handler body: not yet
at the critical section, holding the value its `take()` returned, or
done (having killed if that value was a handle). -/
inductive TPhase where
  | start
  | took (v : Option Nat)
  | finished (v : Option Nat)
deriving DecidableEq, Repr

/-- Shared slot, the two threads, and the kill requests issued so far. -/
structure ShutCfg where
  slot : Option Nat
  t1 : TPhase
  t2 : TPhase
  kills : List Nat
deriving DecidableEq, Repr

/-- Both threads about to run the handler while handle `h` is tracked. -/
def initCfg (h : Nat) : ShutCfg := ⟨some h, .start, .start, []⟩

/-- One scheduler step: either thread may atomically take the slot
(mutex-guarded: read it and leave `None`), and either thread holding its
taken value may complete, issuing a kill exactly when that value is a
handle. -/
inductive ShutStep : ShutCfg → ShutCfg → Prop where
  | take1 (c : ShutCfg) (h : c.t1 = .start) :
      ShutStep c { c with slot := none, t1 := .took c.slot }
  | take2 (c : ShutCfg) (h : c.t2 = .start) :
      ShutStep c { c with slot := none, t2 := .took c.slot }
  | fin1 (c : ShutCfg) (v : Option Nat) (h : c.t1 = .took v) :
      ShutStep c { c with t1 := .finished v, kills := c.kills ++ v.toList }
  | fin2 (c : ShutCfg) (v : Option Nat) (h : c.t2 = .took v) :
      ShutStep c { c with t2 := .finished v, kills := c.kills ++ v.toList }

/-- One if the slot currently holds `h`, else zero. -/
def slotTok (h : Nat) (s : Option Nat) : Nat := if s = some h then 1 else 0

/-- One if the phase is holding handle `h` pre-kill, else zero. -/
def phTok (h : Nat) : TPhase → Nat
  | .took (some x) => if x = h then 1 else 0
  | _ => 0

/-- One if the phase finished holding handle `h`, else zero. -/
def finTok (h : Nat) : TPhase → Nat
  | .finished (some x) => if x = h then 1 else 0
  | _ => 0

/-- The values a thread can ever observe when the only handle is `h`. -/
def PhaseOk (h : Nat) (p : TPhase) : Prop :=
  p = .start ∨ p = .took none ∨ p = .took (some h) ∨
    p = .finished none ∨ p = .finished (some h)

/-- Inductive invariant for the two-shutdown system: the handle `h`
exists in exactly one place (the slot, one thread's taken value, or the
kill ledger), the slot is untouched only while both threads are at the
start, and the ledger matches the threads that finished holding it. -/
structure ShutInv (h : Nat) (c : ShutCfg) : Prop where
  slotOk : c.slot = some h ∨ c.slot = none
  slotStart : c.slot = some h → c.t1 = .start ∧ c.t2 = .start
  t1Ok : PhaseOk h c.t1
  t2Ok : PhaseOk h c.t2
  killsOk : ∀ x ∈ c.kills, x = h
  killsFin : c.kills.length = finTok h c.t1 + finTok h c.t2
  tokOk : slotTok h c.slot + phTok h c.t1 + phTok h c.t2 + c.kills.length = 1

theorem phTok_start (h : Nat) : phTok h .start = 0 := rfl

theorem phTok_took_none (h : Nat) : phTok h (.took none) = 0 := rfl

theorem phTok_took_self (h : Nat) : phTok h (.took (some h)) = 1 := by
  simp [phTok]

theorem phTok_finished (h : Nat) (v : Option Nat) :
    phTok h (.finished v) = 0 := rfl

theorem finTok_start (h : Nat) : finTok h .start = 0 := rfl

theorem finTok_took (h : Nat) (v : Option Nat) : finTok h (.took v) = 0 := rfl

theorem finTok_finished_none (h : Nat) : finTok h (.finished none) = 0 := rfl

theorem finTok_finished_self (h : Nat) : finTok h (.finished (some h)) = 1 := by
  simp [finTok]

theorem slotTok_none (h : Nat) : slotTok h none = 0 := rfl

theorem slotTok_self (h : Nat) : slotTok h (some h) = 1 := by
  simp [slotTok]

theorem shutInv_init (h : Nat) : ShutInv h (initCfg h) := by
  refine ⟨Or.inl rfl, fun _ => ⟨rfl, rfl⟩, Or.inl rfl, Or.inl rfl, ?_, rfl, ?_⟩
  · simp [initCfg]
  · simp [initCfg, slotTok, phTok]

theorem shutInv_step (h : Nat) (c c2 : ShutCfg) (hs : ShutStep c c2)
    (hi : ShutInv h c) : ShutInv h c2 := by
  obtain ⟨slotOk, slotStart, t1Ok, t2Ok, killsOk, killsFin, tokOk⟩ := hi
  cases hs with
  | take1 ht =>
      refine ⟨Or.inr rfl, by simp, ?_, t2Ok, killsOk, ?_, ?_⟩
      · rcases slotOk with hsl | hsl <;> rw [hsl]
        · exact Or.inr (Or.inr (Or.inl rfl))
        · exact Or.inr (Or.inl rfl)
      · rw [ht] at killsFin
        simp only [finTok_start, finTok_took] at killsFin ⊢
        exact killsFin
      · rw [ht] at tokOk
        rcases slotOk with hsl | hsl
        · obtain ⟨-, h2⟩ := slotStart hsl
          rw [hsl] at tokOk ⊢
          rw [h2] at tokOk ⊢
          simp only [phTok_start, phTok_took_self, slotTok_none,
            slotTok_self] at tokOk ⊢
          omega
        · rw [hsl] at tokOk ⊢
          simp only [phTok_start, phTok_took_none, slotTok_none] at tokOk ⊢
          omega
  | take2 ht =>
      refine ⟨Or.inr rfl, by simp, t1Ok, ?_, killsOk, ?_, ?_⟩
      · rcases slotOk with hsl | hsl <;> rw [hsl]
        · exact Or.inr (Or.inr (Or.inl rfl))
        · exact Or.inr (Or.inl rfl)
      · rw [ht] at killsFin
        simp only [finTok_start, finTok_took] at killsFin ⊢
        exact killsFin
      · rw [ht] at tokOk
        rcases slotOk with hsl | hsl
        · obtain ⟨h1, -⟩ := slotStart hsl
          rw [hsl] at tokOk ⊢
          rw [h1] at tokOk ⊢
          simp only [phTok_start, phTok_took_self, slotTok_none,
            slotTok_self] at tokOk ⊢
          omega
        · rw [hsl] at tokOk ⊢
          simp only [phTok_start, phTok_took_none, slotTok_none] at tokOk ⊢
          omega
  | fin1 v ht =>
      have hv : v = none ∨ v = some h := by
        rcases t1Ok with h1 | h1 | h1 | h1 | h1 <;> rw [h1] at ht
        · exact absurd ht (by simp)
        · injection ht with hh
          exact Or.inl hh.symm
        · injection ht with hh
          exact Or.inr hh.symm
        · exact absurd ht (by simp)
        · exact absurd ht (by simp)
      refine ⟨slotOk, ?_, ?_, t2Ok, ?_, ?_, ?_⟩
      · intro hsl
        have hstart := (slotStart hsl).1
        rw [ht] at hstart
        exact absurd hstart (by simp)
      · rcases hv with rfl | rfl
        · exact Or.inr (Or.inr (Or.inr (Or.inl rfl)))
        · exact Or.inr (Or.inr (Or.inr (Or.inr rfl)))
      · intro x hx
        rcases List.mem_append.mp hx with hx | hx
        · exact killsOk x hx
        · rcases hv with rfl | rfl
          · simp at hx
          · simpa using hx
      · rw [ht] at killsFin
        simp only [finTok_took] at killsFin
        rcases hv with rfl | rfl
        · simp only [Option.toList_none, List.append_nil, finTok_finished_none]
          omega
        · simp only [Option.toList_some, List.length_append, List.length_cons,
            List.length_nil, finTok_finished_self]
          omega
      · rw [ht] at tokOk
        rcases hv with rfl | rfl
        · simp only [phTok_took_none] at tokOk
          simp only [phTok_finished, Option.toList_none, List.append_nil]
          omega
        · simp only [phTok_took_self] at tokOk
          simp only [phTok_finished, Option.toList_some, List.length_append,
            List.length_cons, List.length_nil]
          omega
  | fin2 v ht =>
      have hv : v = none ∨ v = some h := by
        rcases t2Ok with h1 | h1 | h1 | h1 | h1 <;> rw [h1] at ht
        · exact absurd ht (by simp)
        · injection ht with hh
          exact Or.inl hh.symm
        · injection ht with hh
          exact Or.inr hh.symm
        · exact absurd ht (by simp)
        · exact absurd ht (by simp)
      refine ⟨slotOk, ?_, t1Ok, ?_, ?_, ?_, ?_⟩
      · intro hsl
        have hstart := (slotStart hsl).2
        rw [ht] at hstart
        exact absurd hstart (by simp)
      · rcases hv with rfl | rfl
        · exact Or.inr (Or.inr (Or.inr (Or.inl rfl)))
        · exact Or.inr (Or.inr (Or.inr (Or.inr rfl)))
      · intro x hx
        rcases List.mem_append.mp hx with hx | hx
        · exact killsOk x hx
        · rcases hv with rfl | rfl
          · simp at hx
          · simpa using hx
      · rw [ht] at killsFin
        simp only [finTok_took] at killsFin
        rcases hv with rfl | rfl
        · simp only [Option.toList_none, List.append_nil, finTok_finished_none]
          omega
        · simp only [Option.toList_some, List.length_append, List.length_cons,
            List.length_nil, finTok_finished_self]
          omega
      · rw [ht] at tokOk
        rcases hv with rfl | rfl
        · simp only [phTok_took_none] at tokOk
          simp only [phTok_finished, Option.toList_none, List.append_nil]
          omega
        · simp only [phTok_took_self] at tokOk
          simp only [phTok_finished, Option.toList_some, List.length_append,
            List.length_cons, List.length_nil]
          omega

/-- The `greet` Tauri command:
`format!("Hello, {}! You've been greeted from Rust!", name)`. -/
def greet (name : String) : String :=
  "Hello, " ++ name ++ "! You've been greeted from Rust!"

/-- The supervisor invariant: no handle was ever killed twice, every
killed handle was previously issued by the fresh counter, and the handle
currently in the slot is fresh enough and not yet killed. -/
def SupInv (s : SupSystem) : Prop :=
  s.kills.Nodup ∧ (∀ h ∈ s.kills, h < s.nextId) ∧
    ∀ c, s.child = some c → c < s.nextId ∧ c ∉ s.kills

theorem supInv_init : SupInv initSystem := by
  refine ⟨List.nodup_nil, ?_, ?_⟩ <;> simp [initSystem]

theorem supInv_step (s : SupSystem) (op : Op) (hs : SupInv s) :
    SupInv (step s op) := by
  obtain ⟨hnd, hlt, hch⟩ := hs
  cases op with
  | setupOp r =>
      cases r with
      | ok =>
          refine ⟨hnd, ?_, ?_⟩
          · intro h hh
            simp only [step, setup] at hh ⊢
            exact Nat.lt_succ_of_lt (hlt h hh)
          · intro c hc
            simp only [step, setup] at hc ⊢
            obtain rfl : c = s.nextId := Option.some.inj hc.symm
            refine ⟨Nat.lt_succ_self _, fun hmem => ?_⟩
            exact Nat.lt_irrefl _ (hlt _ hmem)
      | cmdErr msg => exact ⟨hnd, hlt, hch⟩
      | spawnErr msg => exact ⟨hnd, hlt, hch⟩
  | windowDestroyed killOk =>
      simp only [step, shutdown]
      cases hc : s.child with
      | none => exact ⟨hnd, hlt, by simp⟩
      | some c =>
          obtain ⟨hclt, hcnot⟩ := hch c hc
          refine ⟨?_, ?_, by simp⟩
          · simpa [List.nodup_append] using ⟨hnd, hcnot⟩
          · intro h hh
            rcases List.mem_append.mp hh with hh | hh
            · exact hlt h hh
            · obtain rfl : h = c := by simpa using hh
              exact hclt
  | deliver e => exact ⟨hnd, hlt, hch⟩

theorem supInv_runOps (s : SupSystem) (ops : List Op) (hs : SupInv s) :
    SupInv (runOps s ops) := by
  induction ops generalizing s with
  | nil => exact hs
  | cons op rest ih => exact ih (step s op) (supInv_step s op hs)

theorem deliverAll_child_kills (s : SupSystem) (evs : List CommandEvent) :
    (deliverAll s evs).child = s.child ∧ (deliverAll s evs).kills = s.kills := by
  induction evs generalizing s with
  | nil => exact ⟨rfl, rfl⟩
  | cons e rest ih =>
      have h := ih { s with log := s.log ++ eventLogLines e }
      simpa [deliverAll, runOps, step] using h

/-! ## Theorems -/

/-- C3: the window-destroyed handler invoked while the handle slot is
empty — before any spawn or after a prior shutdown — is a no-op: it
issues no kill, leaves the whole state (slot, kill ledger, log)
unchanged, and returns normally whatever the ignored OS kill outcome
would have been. -/
theorem shutdown_empty_noop (s : SupSystem) (killOk : Bool)
    (hs : s.child = none) : shutdown s killOk = s := by
  cases s with
  | mk child nextId kills log =>
    simp only at hs
    subst hs
    rfl

/-- C3 witness. -/
theorem shutdown_empty_noop_witness : shutdown initSystem true = initSystem :=
  shutdown_empty_noop initSystem true rfl

/-- C4: fed the stream `[stdout "a", stderr "b", terminated 0]` followed
by any further enqueued events, the listener prints exactly three lines,
in order — the stdout line, the stderr line, the termination with its
exit code — and stops, leaving every later event unread. -/
theorem listen_three_then_stop (extra : List CommandEvent) :
    listen ([.stdout "a", .stderr "b", .terminated (some 0) none] ++ extra) =
      ([.out "[Backend] a", .err "[Backend Error] b",
        .out "[Backend] Process terminated with code: Some(0)"], extra) := by
  rfl

/-- C7: if the stream closes without ever delivering a `Terminated`
event, the listener drains it completely and simply finishes: every
event is read (none left pending), the loop ends with the stream, and
the output is exactly the per-event forwarding — no error path runs. -/
theorem listen_stream_end (evs : List CommandEvent)
    (h : hasTerminated evs = false) :
    listen evs = ((evs.map eventLogLines).flatten, []) := by
  induction evs with
  | nil => rfl
  | cons e rest ih =>
    cases e with
    | stdout line =>
        simp only [hasTerminated] at h
        simp [listen, ih h, eventLogLines]
    | stderr line =>
        simp only [hasTerminated] at h
        simp [listen, ih h, eventLogLines]
    | terminated code sig => simp [hasTerminated] at h
    | error msg =>
        simp only [hasTerminated] at h
        simp [listen, ih h, eventLogLines]

/-- C7 witness. -/
theorem listen_stream_end_witness :
    hasTerminated [CommandEvent.stdout "a", CommandEvent.error "e"] = false ∧
      listen [CommandEvent.stdout "a", CommandEvent.error "e"] =
        ([.out "[Backend] a"], []) :=
  ⟨rfl, by
    have := listen_stream_end [CommandEvent.stdout "a", CommandEvent.error "e"] rfl
    simpa [eventLogLines] using this⟩

/-- C6: each listener log line carries the fixed tag of its origin —
stdout lines go to standard output prefixed by the stdout tag, stderr
lines go to standard error prefixed by the stderr tag, termination goes
to standard output prefixed by the termination tag — and the three tags
are pairwise distinct strings. -/
theorem listen_origin_tags :
    (∀ line rest, (listen (.stdout line :: rest)).1 =
        .out (stdoutTag ++ line) :: (listen rest).1) ∧
    (∀ line rest, (listen (.stderr line :: rest)).1 =
        .err (stderrTag ++ line) :: (listen rest).1) ∧
    (∀ code sig rest, listen (.terminated code sig :: rest) =
        ([.out (terminatedTag ++ debugOptionInt code)], rest)) ∧
    stdoutTag ≠ stderrTag ∧ stdoutTag ≠ terminatedTag ∧
      stderrTag ≠ terminatedTag := by
  refine ⟨fun line rest => rfl, fun line rest => rfl, fun code sig rest => rfl,
    ?_, ?_, ?_⟩ <;> decide

/-- C8: the `greet` command maps every input name to the formatted
greeting built from that name; in particular `"X"` yields
`"Hello, X! You've been greeted from Rust!"`. -/
theorem greet_formats (name : String) :
    greet name = "Hello, " ++ name ++ "! You've been greeted from Rust!" ∧
      greet "X" = "Hello, X! You've been greeted from Rust!" :=
  ⟨rfl, rfl⟩

/-- C10: any event other than stdout, stderr or terminated — the
stream's `Error` variant — is silently discarded by the wildcard arm:
the listener prints nothing for it, keeps reading the rest of the
stream, and (as a `deliver` step) leaves the system state entirely
unchanged. -/
theorem listen_wildcard_discard (msg : String) (rest : List CommandEvent)
    (s : SupSystem) :
    listen (.error msg :: rest) = listen rest ∧
      eventLogLines (.error msg) = [] ∧
      step s (.deliver (.error msg)) = s := by
  refine ⟨rfl, rfl, ?_⟩
  cases s with
  | mk child nextId kills log => simp [step, eventLogLines]

/-- C1: along every operation sequence from application start, a
termination signal is sent to any given child handle at most once, and
the window-destroyed path always leaves the handle slot empty (the slot,
an optional cell, holds at most one live handle by construction). -/
theorem no_double_kill :
    (∀ ops : List Op, ∀ h : Nat, (runOps initSystem ops).kills.count h ≤ 1) ∧
      (∀ s killOk, (shutdown s killOk).child = none) := by
  constructor
  · intro ops h
    have hinv := supInv_runOps initSystem ops supInv_init
    exact List.nodup_iff_count_le_one.mp hinv.1 h
  · intro s killOk
    cases hc : s.child <;> simp [shutdown, hc]

/-- C2: when the sidecar command cannot be created or the OS rejects the
launch, the setup closure leaves the (empty) handle slot empty, starts
no listener task, appends one error line to standard error, and still
returns `Ok(())`, so the application keeps running. -/
theorem spawn_failure_leaves_empty (s : SupSystem) (r : SpawnResult)
    (hs : s.child = none) (hr : r ≠ SpawnResult.ok) :
    (setup s r).1.child = none ∧ (setup s r).2.1 = false ∧
      (setup s r).2.2 = Except.ok () ∧
      ∃ m, (setup s r).1.log = s.log ++ [LogLine.err m] := by
  cases r with
  | ok => exact absurd rfl hr
  | cmdErr msg => exact ⟨hs, rfl, rfl, _, rfl⟩
  | spawnErr msg => exact ⟨hs, rfl, rfl, _, rfl⟩

/-- C2 witness. -/
theorem spawn_failure_leaves_empty_witness :
    (setup initSystem (.spawnErr "boom")).1.child = none ∧
      (setup initSystem (.spawnErr "boom")).2.1 = false ∧
      (setup initSystem (.spawnErr "boom")).2.2 = Except.ok () ∧
      ∃ m, (setup initSystem (.spawnErr "boom")).1.log =
        initSystem.log ++ [LogLine.err m] :=
  spawn_failure_leaves_empty initSystem (.spawnErr "boom") rfl (by decide)

/-- C5: the listener task never mutates the supervisor state — draining
any event list (terminated events included) leaves the handle slot and
the kill ledger exactly as they were, so a handle can sit in the slot
after its process exited; the subsequent window-destroyed shutdown still
runs without error, killing that handle exactly once and emptying the
slot; and no operation other than the window-destroyed handler ever
clears an occupied slot. -/
theorem listener_never_mutates_state (s : SupSystem) (evs : List CommandEvent)
    (c : Nat) (killOk : Bool) (op : Op) (hc : s.child = some c) :
    (deliverAll s evs).child = some c ∧ (deliverAll s evs).kills = s.kills ∧
      (shutdown (deliverAll s evs) killOk).child = none ∧
      (shutdown (deliverAll s evs) killOk).kills = s.kills ++ [c] ∧
      ((step s op).child = none → ∃ k, op = Op.windowDestroyed k) := by
  obtain ⟨hch, hk⟩ := deliverAll_child_kills s evs
  have h1 : (deliverAll s evs).child = some c := hch.trans hc
  refine ⟨h1, hk, by simp [shutdown, h1], by simp [shutdown, h1, hk], ?_⟩
  intro hnone
  cases op with
  | setupOp r => cases r <;> simp [step, setup, hc] at hnone
  | windowDestroyed k => exact ⟨k, rfl⟩
  | deliver e => simp [step, hc] at hnone

/-- C5 witness. -/
theorem listener_never_mutates_state_witness :
    (deliverAll ⟨some 0, 1, [], []⟩
        [CommandEvent.terminated (some 0) none]).child = some 0 ∧
      (deliverAll ⟨some 0, 1, [], []⟩
        [CommandEvent.terminated (some 0) none]).kills = [] ∧
      (shutdown (deliverAll ⟨some 0, 1, [], []⟩
        [CommandEvent.terminated (some 0) none]) true).child = none ∧
      (shutdown (deliverAll ⟨some 0, 1, [], []⟩
        [CommandEvent.terminated (some 0) none]) true).kills = [0] ∧
      ((step ⟨some 0, 1, [], []⟩
          (Op.deliver (CommandEvent.stdout "x"))).child = none →
        ∃ k, Op.deliver (CommandEvent.stdout "x") = Op.windowDestroyed k) :=
  listener_never_mutates_state ⟨some 0, 1, [], []⟩
    [CommandEvent.terminated (some 0) none] 0 true
    (Op.deliver (CommandEvent.stdout "x")) rfl

theorem shutInv_reach (h : Nat) (c : ShutCfg)
    (hr : Relation.ReflTransGen ShutStep (initCfg h) c) : ShutInv h c := by
  induction hr with
  | refl => exact shutInv_init h
  | tail _ hstep ih => exact shutInv_step h _ _ hstep ih

/-- C9: when two threads run the window-destroyed handler concurrently
over a slot holding handle `h`, every interleaving in which both threads
complete issues exactly one kill request — for `h` — because the
mutex-guarded `take` is atomic: exactly one thread obtains the handle
(and kills it), the other observes an empty slot and is a no-op. -/
theorem concurrent_shutdown_single_kill (h : Nat) (c : ShutCfg)
    (hr : Relation.ReflTransGen ShutStep (initCfg h) c)
    (v1 v2 : Option Nat) (h1 : c.t1 = .finished v1) (h2 : c.t2 = .finished v2) :
    c.kills = [h] ∧
      ((v1 = some h ∧ v2 = none) ∨ (v1 = none ∧ v2 = some h)) := by
  have hinv : ShutInv h c := shutInv_reach h c hr
  obtain ⟨slotOk, slotStart, t1Ok, t2Ok, killsOk, killsFin, tokOk⟩ := hinv
  have hv1 : v1 = none ∨ v1 = some h := by
    rcases t1Ok with hp | hp | hp | hp | hp <;> rw [h1] at hp
    · exact absurd hp (by simp)
    · exact absurd hp (by simp)
    · exact absurd hp (by simp)
    · injection hp with hh
      exact Or.inl hh
    · injection hp with hh
      exact Or.inr hh
  have hv2 : v2 = none ∨ v2 = some h := by
    rcases t2Ok with hp | hp | hp | hp | hp <;> rw [h2] at hp
    · exact absurd hp (by simp)
    · exact absurd hp (by simp)
    · exact absurd hp (by simp)
    · injection hp with hh
      exact Or.inl hh
    · injection hp with hh
      exact Or.inr hh
  have hslot : c.slot = none := by
    rcases slotOk with hsl | hsl
    · have := (slotStart hsl).1
      rw [h1] at this
      exact absurd this (by simp)
    · exact hsl
  rw [h1, h2] at killsFin tokOk
  rw [hslot] at tokOk
  have hlen : c.kills.length = 1 := by
    simp only [slotTok_none, phTok_finished] at tokOk
    omega
  have hkills : c.kills = [h] := by
    obtain ⟨a, ha⟩ := List.length_eq_one.mp hlen
    have : a = h := killsOk a (by rw [ha]; exact List.mem_singleton_self a)
    rw [ha, this]
  refine ⟨hkills, ?_⟩
  rw [hkills] at killsFin
  rcases hv1 with rfl | rfl <;> rcases hv2 with rfl | rfl
  · rw [finTok_finished_none] at killsFin
    simp at killsFin
  · exact Or.inr ⟨rfl, rfl⟩
  · exact Or.inl ⟨rfl, rfl⟩
  · rw [finTok_finished_self] at killsFin
    simp at killsFin

/-- C9 witness: the interleaving in which thread one takes and kills
before thread two runs. -/
theorem concurrent_shutdown_single_kill_witness :
    (⟨none, .finished (some 5), .finished none, [5]⟩ : ShutCfg).kills = [5] ∧
      (((some 5 : Option Nat) = some 5 ∧ (none : Option Nat) = none) ∨
        ((some 5 : Option Nat) = none ∧ (none : Option Nat) = some 5)) := by
  have s1 : ShutStep (initCfg 5) ⟨none, .took (some 5), .start, []⟩ :=
    ShutStep.take1 _ rfl
  have s2 : ShutStep ⟨none, .took (some 5), .start, []⟩
      ⟨none, .finished (some 5), .start, [5]⟩ :=
    ShutStep.fin1 _ (some 5) rfl
  have s3 : ShutStep ⟨none, .finished (some 5), .start, [5]⟩
      ⟨none, .finished (some 5), .took none, [5]⟩ :=
    ShutStep.take2 _ rfl
  have s4 : ShutStep ⟨none, .finished (some 5), .took none, [5]⟩
      ⟨none, .finished (some 5), .finished none, [5]⟩ :=
    ShutStep.fin2 _ none rfl
  exact concurrent_shutdown_single_kill 5 _
    ((((Relation.ReflTransGen.refl.tail s1).tail s2).tail s3).tail s4)
    (some 5) none rfl rfl

end CtrlDeck
